import Mathlib

/-!
Verification of the Gray-Scott reaction-diffusion core (`src/Ex2/rd_kernel.cu`)
against its natural-language specification.

Modelling conventions:
* `float` values are modelled as exact rationals (`ℚ`); decimal literals of the
  source are read as the exact rationals they denote.
* `unsigned int` arithmetic is modelled on `Nat` with an explicit `% W32`
  (`W32 = 2^32`) wherever wrap-around can matter (the `y-1`/`x-1` underflow in
  the stencil, index products).
* A concentration field is a function `Nat → ℚ` from the linear index
  `idx = y*width + x` to the stored value; an in-place array store is the
  pointwise update `updAt`.
* The CUDA launch runs one logical task per cell with no ordering guarantee.
  `rdInPlace` realises the implemented single-buffer kernel under one
  admissible schedule (cells complete one after another in row-major linear
  order); `rdStepRef` is the double-buffered reference step the specification
  mandates, in which every read sees only pre-step values.
-/

namespace RD

/-- `2^32`, the modulus of the `unsigned int` arithmetic of the source. -/
def W32 : Nat := 4294967296

/-- Pointwise store `f[i] = v`, the model of an in-place array write. -/
def updAt (f : Nat → ℚ) (i : Nat) (v : ℚ) : Nat → ℚ :=
  fun j => if j = i then v else f j

/-- A spatially uniform field. -/
def constField (c : ℚ) : Nat → ℚ := fun _ => c

/-- `calculateLaplacian` (src/Ex2/rd_kernel.cu lines 50-57).

    unsigned int up    = ((coordinate.y-1 + height) % height)*width + coordinate.x;
    unsigned int down  = ((coordinate.y+1) % height) * width + coordinate.x;
    unsigned int right = (coordinate.y)*width + (coordinate.x + 1) % width;
    unsigned int left  = (coordinate.y)*width + (coordinate.x - 1 + width) % width;
    result = (array[right] + array[left] + array[up] + array[down] - 4*value)/(dx*dx);

The `unsigned` sums `y-1+height` and `x-1+width` are computed modulo `2^32`
(consecutive wrapping additions collapse to a single outer `% W32`), and the
final index computations `row*width + x` wrap modulo `2^32` as well. -/
def calculateLaplacian (dx : ℚ) (array : Nat → ℚ) (x y : Nat) (value : ℚ)
    (width height : Nat) : ℚ :=
  let up := ((((y + (W32 - 1) + height) % W32) % height) * width + x) % W32
  let down := ((((y + 1) % W32) % height) * width + x) % W32
  let right := (y * width + (((x + 1) % W32) % width)) % W32
  let left := (y * width + (((x + (W32 - 1) + width) % W32) % width)) % W32
  (array right + array left + array up + array down - 4 * value) / (dx * dx)

/-- Modelled from the spec (§4.2): the periodic discrete Laplacian,
`(right+left+up+down - 4*center)/dx²`, where each neighbor index wraps around
its own axis independently (modulo `width` for x, modulo `height` for y),
with no special-casing at edges. Used as the reference the implemented
stencil is compared against. -/
def specLaplacian (dx : ℚ) (f : Nat → ℚ) (width height x y : Nat) : ℚ :=
  (f (y * width + (x + 1) % width) + f (y * width + (x + width - 1) % width)
    + f (((y + height - 1) % height) * width + x)
    + f (((y + 1) % height) * width + x)
    - 4 * f (y * width + x)) / (dx * dx)

/-- The per-cell body of `rd_kernel` (src/Ex2/rd_kernel.cu lines 63-91):
reads `vU = U[idx]`, `vV = V[idx]`, computes the Laplacian of `U`, forms the
new `U` value, then computes the Laplacian of `V` and the new `V` value.
The `vU*vV*vV` reaction term of the `V` update uses `vU`, the same-cell `U`
value read before the `U[idx]` store (the store to `U[idx]` does not affect
the `V` update of the same cell, whose Laplacian reads the `V` array only). -/
def rdKernelCell (width height : Nat) (dt dx Du Dv F k : ℚ) (U V : Nat → ℚ)
    (x y : Nat) : ℚ × ℚ :=
  let idx := (y * width + x) % W32
  let vU := U idx
  let vV := V idx
  let lapU := calculateLaplacian dx U x y vU width height
  let stepU := Du * lapU - vU * vV * vV + F * (1 - vU)
  let newU := vU + dt * stepU
  let lapV := calculateLaplacian dx V x y vV width height
  let stepV := Dv * lapV + vU * vV * vV - (F + k) * vV
  let newV := vV + dt * stepV
  (newU, newV)

/-- `dt` of the wrapper `rd` (src line 136): `0.5f = 1/2`. -/
def rd_dt : ℚ := 1 / 2

/-- `dx` of the wrapper `rd` (src line 137): `2.0f`. -/
def rd_dx : ℚ := 2

/-- `Du` of the wrapper `rd` (src line 138): `0.0004f*((width*height)/100.0f)`;
the `unsigned` product `width*height` wraps modulo `2^32`. -/
def rd_Du (width height : Nat) : ℚ :=
  (4 / 10000) * (((width * height % W32 : Nat) : ℚ) / 100)

/-- `Dv` of the wrapper `rd` (src line 139): `0.0002f*((width*height)/100.0f)`. -/
def rd_Dv (width height : Nat) : ℚ :=
  (2 / 10000) * (((width * height % W32 : Nat) : ℚ) / 100)

/-- `F` of the wrapper `rd` (src line 140): `0.012f`. -/
def rd_F : ℚ := 12 / 1000

/-- `k` of the wrapper `rd` (src line 141): `0.052f`. -/
def rd_k : ℚ := 52 / 1000

/-- Single-buffer in-place execution of `rd_kernel` over a list of cells
(linear indices), one cell completing after another, exactly as the source
kernel behaves under an execution schedule that runs the cell tasks one at a
time: each cell reads the *current* contents of `U` and `V` — including
values already overwritten by earlier cells — and stores its two results
in place. -/
def rdInPlaceAux (width height : Nat) (dt dx Du Dv F k : ℚ) :
    List Nat → ((Nat → ℚ) × (Nat → ℚ)) → ((Nat → ℚ) × (Nat → ℚ))
  | [], UV => UV
  | i :: rest, UV =>
    let x := i % width
    let y := i / width
    let idx := (y * width + x) % W32
    let c := rdKernelCell width height dt dx Du Dv F k UV.1 UV.2 x y
    rdInPlaceAux width height dt dx Du Dv F k rest
      (updAt UV.1 idx c.1, updAt UV.2 idx c.2)

/-- The implemented step (src/Ex2/rd_kernel.cu lines 63-91, launched over the
whole `width*height` grid at line 144), under the row-major one-cell-at-a-time
schedule, which the unsynchronized launch admits. -/
def rdInPlace (width height : Nat) (dt dx Du Dv F k : ℚ) (U V : Nat → ℚ) :
    ((Nat → ℚ) × (Nat → ℚ)) :=
  rdInPlaceAux width height dt dx Du Dv F k (List.range (width * height)) (U, V)

/-- Modelled from the spec (§4.3, §5): the double-buffered reference step in
which every neighbor read of every cell sees only the pre-step fields. -/
def rdStepRef (width height : Nat) (dt dx Du Dv F k : ℚ) (U V : Nat → ℚ) :
    ((Nat → ℚ) × (Nat → ℚ)) :=
  (fun i => (rdKernelCell width height dt dx Du Dv F k U V (i % width) (i / width)).1,
   fun i => (rdKernelCell width height dt dx Du Dv F k U V (i % width) (i / width)).2)

/-- Row membership in the seeded central patch (src lines 23-28):
the loop `for (i = (0.48f)*height; i < (0.52f)*height; ++i)` visits exactly
the integers `i` with `trunc(0.48*height) ≤ i` and `i < 0.52*height`; in
integer form (reading the decimal literals exactly), `48*height/100 ≤ i`
(Nat division is the truncation) and `100*i < 52*height`. -/
def seedRowSet (height i : Nat) : Prop :=
  48 * height / 100 ≤ i ∧ 100 * i < 52 * height

instance (height i : Nat) : Decidable (seedRowSet height i) :=
  show Decidable (48 * height / 100 ≤ i ∧ 100 * i < 52 * height) from inferInstance

/-- Column membership in the seeded central patch (src lines 24-27), the
inner loop over `j`, in the same integer form. -/
def seedColSet (width j : Nat) : Prop :=
  48 * width / 100 ≤ j ∧ 100 * j < 52 * width

instance (width j : Nat) : Decidable (seedColSet width j) :=
  show Decidable (48 * width / 100 ≤ j ∧ 100 * j < 52 * width) from inferInstance

/-- The rows visited by the seeding loop, in loop order. -/
def seedRows (height : Nat) : List Nat :=
  (List.range height).filter (fun i => decide (seedRowSet height i))

/-- The columns visited by the inner seeding loop, in loop order. -/
def seedCols (width : Nat) : List Nat :=
  (List.range width).filter (fun j => decide (seedColSet width j))

/-- The linear indices `i*width + j` written by the seeding double loop
(src lines 23-28), in loop order. -/
def seedIdxs (width height : Nat) : List Nat :=
  (seedRows height).flatMap (fun i => (seedCols width).map (fun j => i * width + j))

/-- Store the value `v` at every index of the list, in order. -/
def setCells (v : ℚ) : List Nat → (Nat → ℚ) → (Nat → ℚ)
  | [], f => f
  | i :: rest, f => setCells v rest (updAt f i v)

/-- `_U` after the baseline fill (src lines 18-21, every cell `1.0f`) and the
seeding loop (src lines 23-28, patch cells `0.5f`), before the perturbation. -/
def initU_pre (width height : Nat) : Nat → ℚ :=
  setCells (1 / 2) (seedIdxs width height) (constField 1)

/-- `_V` after the baseline fill (every cell `0.0f`) and the seeding loop
(patch cells `0.25f`), before the perturbation. -/
def initV_pre (width height : Nat) : Nat → ℚ :=
  setCells (1 / 4) (seedIdxs width height) (constField 0)

/-- Modelled from the spec: "rows ... in the fractional range [0.48, 0.52) of
height", i.e. `0.48 ≤ i/height < 0.52`, in the same exact integer form. -/
def specFracRow (height i : Nat) : Prop :=
  48 * height ≤ 100 * i ∧ 100 * i < 52 * height

instance (height i : Nat) : Decidable (specFracRow height i) :=
  show Decidable (48 * height ≤ 100 * i ∧ 100 * i < 52 * height) from inferInstance

/-- Modelled from the spec: "columns in the fractional range [0.48, 0.52) of
width", i.e. `0.48 ≤ j/width < 0.52`. -/
def specFracCol (width j : Nat) : Prop :=
  48 * width ≤ 100 * j ∧ 100 * j < 52 * width

instance (width j : Nat) : Decidable (specFracCol width j) :=
  show Decidable (48 * width ≤ 100 * j ∧ 100 * j < 52 * width) from inferInstance

/-- One conditional multiplicative perturbation (src lines 32-35 and 36-39):
if the value is `< 1.0f`, draw the next random number `rRand` from the
process-wide source and add `rRand * value`; otherwise the value is untouched
and no random number is consumed. `g n` is the `n`-th value of
`0.02f*(float)rand() / RAND_MAX - 0.01f`; the result pairs the new value with
the next unconsumed position of the random stream. -/
def perturbCell (g : Nat → ℚ) (n : Nat) (u : ℚ) : ℚ × Nat :=
  if u < 1 then (u + g n * u, n + 1) else (u, n)

/-- The perturbation loop (src lines 31-40): for each cell in order, perturb
`U` then `V`, threading the position in the random stream. -/
def perturbAux (g : Nat → ℚ) :
    List Nat → (Nat → ℚ) → (Nat → ℚ) → Nat → ((Nat → ℚ) × (Nat → ℚ))
  | [], U, V, _ => (U, V)
  | i :: rest, U, V, n =>
    let pU := perturbCell g n (U i)
    let pV := perturbCell g pU.2 (V i)
    perturbAux g rest (updAt U i pU.1) (updAt V i pV.1) pV.2

/-- `initializeConcentrations` (src lines 10-48): baseline fill, central-patch
seeding, then the perturbation sweep over all `width*height` cells, consuming
the random stream `g`. -/
def initializeConcentrations (g : Nat → ℚ) (width height : Nat) :
    ((Nat → ℚ) × (Nat → ℚ)) :=
  perturbAux g (List.range (width * height)) (initU_pre width height)
    (initV_pre width height) 0

/-- Observable actions of one call to the wrapper `rd`
(src/Ex2/rd_kernel.cu lines 101-155). -/
inductive Event where
  | allocU (size : Nat)
  | allocV (size : Nat)
  | initFields
  | configError
  | kernelLaunch (width height : Nat)
  | copyOut
  deriving DecidableEq

/-- The persistent state of `rd`: the static buffers, recorded by the
dimensions they were allocated with (`none` while `first_pass` is true). -/
structure RDState where
  bufDims : Option (Nat × Nat)
  deriving DecidableEq

/-- One call to `rd(width, height, result_devPtr)` (src lines 101-155),
as a state transition plus the ordered list of its observable actions:
on the first pass it allocates both device buffers (`width*height` floats
each) and initializes them; then it checks `width % 16` and `height % 16`
and either reports the configuration error and quits, or launches
`rd_kernel` with the *current* call's dimensions and copies `U` out.
Allocation is modelled as succeeding (the `cudaMalloc` error path aborts
without touching the fields). -/
def rdCall (s : RDState) (width height : Nat) : RDState × List Event :=
  let first := match s.bufDims with
    | none => (RDState.mk (some (width, height)),
        [Event.allocU (width * height), Event.allocV (width * height),
         Event.initFields])
    | some d => (RDState.mk (some d), ([] : List Event))
  if width % 16 ≠ 0 ∨ height % 16 ≠ 0 then
    (first.1, first.2 ++ [Event.configError])
  else
    (first.1, first.2 ++ [Event.kernelLaunch width height, Event.copyOut])

/-- A sample non-uniform field used in concrete witnesses. -/
def sampleField : Nat → ℚ := fun i => (i : ℚ)

/-- A 16×16 initial `U`: the flat value `1` everywhere except the single
cell of linear index `0`, which holds `1/2`. -/
def badU : Nat → ℚ := fun i => if i = 0 then 1 / 2 else 1

/-- A 16×16 initial `V`: `0` everywhere except cell `0`, which holds `1/2`. -/
def badV : Nat → ℚ := fun i => if i = 0 then 1 / 2 else 0

/-- A concrete admissible random stream: every draw equals `0.01`. -/
def constStream : Nat → ℚ := fun _ => 1 / 100

/-! ### Index arithmetic of the stencil -/

/-- A row-local linear index `r*width + c` with `r < height`, `c < width`
stays below `2^32` on a grid of at most `2^32` cells, so its `unsigned`
computation does not wrap. -/
lemma rowIdx_mod (width height r c : Nat) (hr : r < height) (hc : c < width)
    (hwh : width * height ≤ W32) : (r * width + c) % W32 = r * width + c := by
  have h1 : r * width + c < width * height := by
    calc r * width + c < r * width + width := by omega
    _ = (r + 1) * width := by ring
    _ ≤ height * width := Nat.mul_le_mul_right _ (by omega)
    _ = width * height := Nat.mul_comm _ _
  exact Nat.mod_eq_of_lt (lt_of_lt_of_le h1 hwh)

/-- On a uniform field every neighbor read returns `c`, so the stencil
numerator vanishes identically. -/
lemma lapConstZero (dx c : ℚ) (x y width height : Nat) :
    calculateLaplacian dx (constField c) x y c width height = 0 := by
  simp only [calculateLaplacian, constField]
  have h : c + c + c + c - 4 * c = 0 := by ring
  rw [h, zero_div]

/-- Core of the wrap-correctness of the implemented stencil: for an in-range
coordinate on a machine-representable grid, the implemented `unsigned`
index arithmetic realises exactly the axis-wise modular neighbor indices of
the specification. -/
lemma calcLap_eq_specLap (dx : ℚ) (f : Nat → ℚ)
    (width height x y : Nat) (hx : x < width) (hy : y < height)
    (hxw : x + width < W32) (hyh : y + height < W32)
    (hwh : width * height ≤ W32) :
    calculateLaplacian dx f x y (f (y * width + x)) width height
      = specLaplacian dx f width height x y := by
  simp only [calculateLaplacian, specLaplacian]
  have hup1 : (y + (W32 - 1) + height) % W32 = y + height - 1 := by
    simp only [W32] at *; omega
  have hdn1 : (y + 1) % W32 = y + 1 := by simp only [W32] at *; omega
  have hr1 : (x + 1) % W32 = x + 1 := by simp only [W32] at *; omega
  have hl1 : (x + (W32 - 1) + width) % W32 = x + width - 1 := by
    simp only [W32] at *; omega
  rw [hup1, hdn1, hr1, hl1]
  rw [rowIdx_mod width height ((y + height - 1) % height) x
      (Nat.mod_lt _ (by omega)) hx hwh]
  rw [rowIdx_mod width height ((y + 1) % height) x
      (Nat.mod_lt _ (by omega)) hx hwh]
  rw [rowIdx_mod width height y ((x + 1) % width) hy
      (Nat.mod_lt _ (by omega)) hwh]
  rw [rowIdx_mod width height y ((x + width - 1) % width) hy
      (Nat.mod_lt _ (by omega)) hwh]

/-- C4: for every field and every in-range coordinate on a
machine-representable grid (positive dimensions), the implemented Laplacian
returns `(right+left+up+down - 4*center)/dx²` where each of the four
neighbor indices wraps around its own axis independently (modulo `width`
for x, modulo `height` for y), with no special-casing at edges. -/
theorem calculateLaplacian_periodic_wrap (dx : ℚ) (f : Nat → ℚ)
    (width height x y : Nat) (hx : x < width) (hy : y < height)
    (hxw : x + width < W32) (hyh : y + height < W32)
    (hwh : width * height ≤ W32) :
    calculateLaplacian dx f x y (f (y * width + x)) width height
      = specLaplacian dx f width height x y :=
  calcLap_eq_specLap dx f width height x y hx hy hxw hyh hwh

/-- Witness for C4 at `width = height = 3`, `x = y = 0`, on the
non-uniform field `i ↦ i`: the hypotheses hold and the theorem applies. -/
theorem calculateLaplacian_periodic_wrap_witness :
    (3 : Nat) * 3 ≤ W32 ∧
      calculateLaplacian 2 sampleField 0 0 (sampleField (0 * 3 + 0)) 3 3
        = specLaplacian 2 sampleField 3 3 0 0 :=
  ⟨by decide,
   calculateLaplacian_periodic_wrap 2 sampleField 3 3 0 0 (by decide)
     (by decide) (by decide) (by decide) (by decide)⟩

/-- C8: for every spatially uniform field and every grid and coordinate
(corners included), the implemented Laplacian is exactly `0`: each periodic
neighbor read returns the common value `c`. -/
theorem laplacian_uniform_field_zero (dx c : ℚ) (x y width height : Nat) :
    calculateLaplacian dx (constField c) x y c width height = 0 :=
  lapConstZero dx c x y width height

/-- C3: at every in-range cell of a machine-representable grid, one kernel
evaluation with the wrapper's constants computes
`newU = U + dt*(Du*Laplacian(U) - U*V² + F*(1-U))` and
`newV = V + dt*(Dv*Laplacian(V) + U*V² - (F+k)*V)`, where the `U*V²` term of
the `V` update uses the pre-step same-cell `U` value, and the constants are
exactly `dt = 0.5`, `dx = 2`, `F = 0.012`, `k = 0.052`,
`Du = 0.0004*(width*height/100)` and `Dv = 0.0002*(width*height/100)`. -/
theorem rd_kernel_cell_formula_and_constants (width height x y : Nat)
    (U V : Nat → ℚ) (hx : x < width) (hy : y < height)
    (hxw : x + width < W32) (hyh : y + height < W32)
    (hwh : width * height < W32) :
    rdKernelCell width height rd_dt rd_dx (rd_Du width height)
        (rd_Dv width height) rd_F rd_k U V x y
      = (U (y * width + x)
           + rd_dt * (rd_Du width height * specLaplacian rd_dx U width height x y
               - U (y * width + x) * V (y * width + x) ^ 2
               + rd_F * (1 - U (y * width + x))),
         V (y * width + x)
           + rd_dt * (rd_Dv width height * specLaplacian rd_dx V width height x y
               + U (y * width + x) * V (y * width + x) ^ 2
               - (rd_F + rd_k) * V (y * width + x)))
    ∧ rd_dt = 1 / 2 ∧ rd_dx = 2 ∧ rd_F = 12 / 1000 ∧ rd_k = 52 / 1000
    ∧ rd_Du width height = 4 / 10000 * (((width * height : Nat) : ℚ) / 100)
    ∧ rd_Dv width height = 2 / 10000 * (((width * height : Nat) : ℚ) / 100) := by
  have hidx : (y * width + x) % W32 = y * width + x :=
    rowIdx_mod width height y x hy hx (le_of_lt hwh)
  refine ⟨?_, rfl, rfl, rfl, rfl, ?_, ?_⟩
  · simp only [rdKernelCell, hidx]
    rw [calcLap_eq_specLap rd_dx U width height x y hx hy hxw hyh (le_of_lt hwh)]
    rw [calcLap_eq_specLap rd_dx V width height x y hx hy hxw hyh (le_of_lt hwh)]
    simp only [Prod.mk.injEq]
    constructor <;> ring
  · simp only [rd_Du, Nat.mod_eq_of_lt hwh]
  · simp only [rd_Dv, Nat.mod_eq_of_lt hwh]

/-- Witness for C3 at `width = height = 16`, `x = y = 0`, on the field
`i ↦ i` for both `U` and `V`: the hypotheses hold, the theorem applies, and
its first component yields the stated `U` update. -/
theorem rd_kernel_cell_formula_and_constants_witness :
    (rdKernelCell 16 16 rd_dt rd_dx (rd_Du 16 16) (rd_Dv 16 16) rd_F rd_k
        sampleField sampleField 0 0).1
      = sampleField (0 * 16 + 0)
          + rd_dt * (rd_Du 16 16 * specLaplacian rd_dx sampleField 16 16 0 0
              - sampleField (0 * 16 + 0) * sampleField (0 * 16 + 0) ^ 2
              + rd_F * (1 - sampleField (0 * 16 + 0))) :=
  congrArg Prod.fst
    (rd_kernel_cell_formula_and_constants 16 16 0 0 sampleField sampleField
        (by decide) (by decide) (by decide) (by decide) (by decide)).1

/-! ### The seeding loop and the initial fields -/

/-- The integer form of the seeding-loop row range agrees with the exact
reading of the source floats: start at `⌊0.48*height⌋` (the `int` cast
truncates), run while `i < 0.52*height`. -/
lemma seedRowSet_iff (height i : Nat) :
    seedRowSet height i
      ↔ (Nat.floor ((48 / 100 : ℚ) * height) ≤ i ∧ (i : ℚ) < 52 / 100 * height) := by
  unfold seedRowSet
  have h1 : Nat.floor ((48 / 100 : ℚ) * height) = 48 * height / 100 := by
    rw [show (48 / 100 : ℚ) * height = ((48 * height : ℕ) : ℚ) / ((100 : ℕ) : ℚ) by
      push_cast; ring]
    rw [Nat.floor_div_nat, Nat.floor_natCast]
  have h2 : ((i : ℚ) < 52 / 100 * height) ↔ 100 * i < 52 * height := by
    rw [show (52 / 100 : ℚ) * height = ((52 * height : ℕ) : ℚ) / ((100 : ℕ) : ℚ) by
      push_cast; ring]
    rw [lt_div_iff₀ (by norm_num : (0 : ℚ) < ((100 : ℕ) : ℚ))]
    rw [show ((i : ℚ) * ((100 : ℕ) : ℚ)) = ((i * 100 : ℕ) : ℚ) by push_cast; ring]
    rw [Nat.cast_lt]
    constructor <;> omega
  rw [h1, h2]

/-- Column analogue of `seedRowSet_iff`. -/
lemma seedColSet_iff (width j : Nat) :
    seedColSet width j
      ↔ (Nat.floor ((48 / 100 : ℚ) * width) ≤ j ∧ (j : ℚ) < 52 / 100 * width) := by
  unfold seedColSet
  have h1 : Nat.floor ((48 / 100 : ℚ) * width) = 48 * width / 100 := by
    rw [show (48 / 100 : ℚ) * width = ((48 * width : ℕ) : ℚ) / ((100 : ℕ) : ℚ) by
      push_cast; ring]
    rw [Nat.floor_div_nat, Nat.floor_natCast]
  have h2 : ((j : ℚ) < 52 / 100 * width) ↔ 100 * j < 52 * width := by
    rw [show (52 / 100 : ℚ) * width = ((52 * width : ℕ) : ℚ) / ((100 : ℕ) : ℚ) by
      push_cast; ring]
    rw [lt_div_iff₀ (by norm_num : (0 : ℚ) < ((100 : ℕ) : ℚ))]
    rw [show ((j : ℚ) * ((100 : ℕ) : ℚ)) = ((j * 100 : ℕ) : ℚ) by push_cast; ring]
    rw [Nat.cast_lt]
    constructor <;> omega
  rw [h1, h2]

/-- The value of a field after storing `v` at a list of indices. -/
lemma setCells_apply (v : ℚ) : ∀ (l : List Nat) (f : Nat → ℚ) (j : Nat),
    setCells v l f j = if j ∈ l then v else f j := by
  intro l
  induction l with
  | nil => intro f j; simp [setCells]
  | cons i rest ih =>
    intro f j
    simp only [setCells]
    rw [ih]
    by_cases hjr : j ∈ rest
    · simp [hjr, List.mem_cons]
    · by_cases hji : j = i
      · simp [updAt, hji, hjr]
      · simp [updAt, hji, hjr, List.mem_cons]

lemma mem_seedRows (height i : Nat) :
    i ∈ seedRows height ↔ seedRowSet height i := by
  unfold seedRows
  rw [List.mem_filter]
  simp only [List.mem_range, decide_eq_true_eq]
  constructor
  · rintro ⟨_, h⟩; exact h
  · intro h; exact ⟨by rcases h with ⟨_, h2⟩; omega, h⟩

lemma mem_seedCols (width j : Nat) :
    j ∈ seedCols width ↔ seedColSet width j := by
  unfold seedCols
  rw [List.mem_filter]
  simp only [List.mem_range, decide_eq_true_eq]
  constructor
  · rintro ⟨_, h⟩; exact h
  · intro h; exact ⟨by rcases h with ⟨_, h2⟩; omega, h⟩

/-- The seeding double loop writes exactly the cells whose row and column
indices lie in the loop ranges. -/
lemma mem_seedIdxs (width height idx : Nat) (hw : 0 < width) :
    idx ∈ seedIdxs width height
      ↔ seedRowSet height (idx / width) ∧ seedColSet width (idx % width) := by
  unfold seedIdxs
  rw [List.mem_flatMap]
  constructor
  · rintro ⟨i, hi, hj⟩
    rw [List.mem_map] at hj
    obtain ⟨j, hjmem, rfl⟩ := hj
    rw [mem_seedRows] at hi
    rw [mem_seedCols] at hjmem
    have hjw : j < width := by rcases hjmem with ⟨_, h2⟩; omega
    have hdiv : (i * width + j) / width = i := by
      rw [Nat.mul_comm i width, Nat.mul_add_div hw, Nat.div_eq_of_lt hjw]
      omega
    have hmod : (i * width + j) % width = j := by
      rw [Nat.mul_comm i width, Nat.mul_add_mod, Nat.mod_eq_of_lt hjw]
    rw [hdiv, hmod]; exact ⟨hi, hjmem⟩
  · rintro ⟨hrow, hcol⟩
    refine ⟨idx / width, (mem_seedRows _ _).mpr hrow, ?_⟩
    rw [List.mem_map]
    refine ⟨idx % width, (mem_seedCols _ _).mpr hcol, ?_⟩
    rw [Nat.mul_comm (idx / width) width]
    exact Nat.div_add_mod idx width

/-- Closed form of the pre-perturbation `U` field. -/
lemma initU_pre_apply (width height idx : Nat) (hw : 0 < width) :
    initU_pre width height idx
      = if seedRowSet height (idx / width) ∧ seedColSet width (idx % width)
        then 1 / 2 else 1 := by
  unfold initU_pre
  rw [setCells_apply]
  by_cases h : seedRowSet height (idx / width) ∧ seedColSet width (idx % width)
  · rw [if_pos ((mem_seedIdxs width height idx hw).mpr h), if_pos h]
  · rw [if_neg (fun hm => h ((mem_seedIdxs width height idx hw).mp hm)), if_neg h]
    rfl

/-- Closed form of the pre-perturbation `V` field. -/
lemma initV_pre_apply (width height idx : Nat) (hw : 0 < width) :
    initV_pre width height idx
      = if seedRowSet height (idx / width) ∧ seedColSet width (idx % width)
        then 1 / 4 else 0 := by
  unfold initV_pre
  rw [setCells_apply]
  by_cases h : seedRowSet height (idx / width) ∧ seedColSet width (idx % width)
  · rw [if_pos ((mem_seedIdxs width height idx hw).mpr h), if_pos h]
  · rw [if_neg (fun hm => h ((mem_seedIdxs width height idx hw).mp hm)), if_neg h]
    rfl

/-- C5 counterexample: on the 16×16 grid, cell `(7,7)` (linear index 119)
lies outside the fractional patch `[0.48, 0.52)` — its fractional position
is `7/16 = 0.4375 < 0.48` — yet the seeding loop, which starts at the
truncation `(int)(0.48*16) = 7`, set it to `U = 1/2` and `V = 1/4`. The
claim that before the perturbation every cell outside the fractional patch
holds `U = 1` and `V = 0` exactly is therefore false. -/
theorem init_seeds_cell_outside_fractional_patch :
    ¬ (specFracRow 16 (119 / 16) ∧ specFracCol 16 (119 % 16))
    ∧ initU_pre 16 16 119 ≠ 1 ∧ initV_pre 16 16 119 ≠ 0 := by
  refine ⟨by decide, ?_, ?_⟩
  · rw [initU_pre_apply 16 16 119 (by norm_num), if_pos (by decide)]
    norm_num
  · rw [initV_pre_apply 16 16 119 (by norm_num), if_pos (by decide)]
    norm_num

/-- C5 (amended): before the perturbation, the fields are the `U=1, V=0`
baseline everywhere except the seeded patch, which holds `U=1/2, V=1/4`
exactly; the patch consists of the cells whose row index `i` satisfies
`⌊0.48*height⌋ ≤ i < 0.52*height` (the loop starts at the *truncation* of
`0.48*height`, not at its ceiling) and whose column index satisfies the
analogous bounds for `width`. -/
theorem init_preperturb_patch_characterization (width height idx : Nat)
    (hw : 0 < width) :
    initU_pre width height idx
      = (if seedRowSet height (idx / width) ∧ seedColSet width (idx % width)
         then 1 / 2 else 1)
    ∧ initV_pre width height idx
      = (if seedRowSet height (idx / width) ∧ seedColSet width (idx % width)
         then 1 / 4 else 0) :=
  ⟨initU_pre_apply width height idx hw, initV_pre_apply width height idx hw⟩

/-- Witness for the amended C5 at the seeded cell `(8, 8)` of a 16×16
grid (linear index 136). -/
theorem init_preperturb_patch_characterization_witness :
    initU_pre 16 16 136
      = (if seedRowSet 16 (136 / 16) ∧ seedColSet 16 (136 % 16)
         then 1 / 2 else 1)
    ∧ initV_pre 16 16 136
      = (if seedRowSet 16 (136 / 16) ∧ seedColSet 16 (136 % 16)
         then 1 / 4 else 0) :=
  init_preperturb_patch_characterization 16 16 136 (by norm_num)

/-! ### The perturbation sweep -/

/-- Cells not in the sweep list keep their values. -/
lemma perturbAux_untouched (g : Nat → ℚ) (j : Nat) :
    ∀ (l : List Nat) (U V : Nat → ℚ) (n : Nat), j ∉ l →
      (perturbAux g l U V n).1 j = U j ∧ (perturbAux g l U V n).2 j = V j := by
  intro l
  induction l with
  | nil => intro U V n _; exact ⟨rfl, rfl⟩
  | cons i rest ih =>
    intro U V n hj
    have hji : j ≠ i := fun h => hj (by simp [h])
    have hjr : j ∉ rest := fun h => hj (List.mem_cons_of_mem _ h)
    simp only [perturbAux]
    constructor
    · rw [(ih _ _ _ hjr).1]; simp [updAt, hji]
    · rw [(ih _ _ _ hjr).2]; simp [updAt, hji]

/-- After a sweep that visits `j` exactly once, the value at `j` of each
field is its pre-sweep value perturbed by `perturbCell` at some position of
the random stream. -/
lemma perturbAux_value (g : Nat → ℚ) (j : Nat) :
    ∀ (l : List Nat) (U V : Nat → ℚ) (n : Nat), j ∈ l → l.Nodup →
      (∃ m, (perturbAux g l U V n).1 j = (perturbCell g m (U j)).1)
      ∧ (∃ m, (perturbAux g l U V n).2 j = (perturbCell g m (V j)).1) := by
  intro l
  induction l with
  | nil => intro U V n h _; exact absurd h (List.not_mem_nil j)
  | cons i rest ih =>
    intro U V n hmem hnd
    obtain ⟨hir, hndr⟩ := List.nodup_cons.mp hnd
    by_cases hji : j = i
    · subst hji
      simp only [perturbAux]
      obtain ⟨h1, h2⟩ := perturbAux_untouched g j rest
        (updAt U j (perturbCell g n (U j)).1)
        (updAt V j (perturbCell g (perturbCell g n (U j)).2 (V j)).1)
        (perturbCell g (perturbCell g n (U j)).2 (V j)).2 hir
      constructor
      · exact ⟨n, by rw [h1]; simp [updAt]⟩
      · exact ⟨(perturbCell g n (U j)).2, by rw [h2]; simp [updAt]⟩
    · have hjr : j ∈ rest := by
        rcases List.mem_cons.mp hmem with h | h
        · exact absurd h hji
        · exact h
      simp only [perturbAux]
      obtain ⟨⟨m1, hm1⟩, ⟨m2, hm2⟩⟩ := ih
        (updAt U i (perturbCell g n (U i)).1)
        (updAt V i (perturbCell g (perturbCell g n (U i)).2 (V i)).1)
        (perturbCell g (perturbCell g n (U i)).2 (V i)).2 hjr hndr
      constructor
      · refine ⟨m1, ?_⟩; rw [hm1]; simp [updAt, hji]
      · refine ⟨m2, ?_⟩; rw [hm2]; simp [updAt, hji]

/-- C6: the perturbation applies `value += value * r` (with `r` the next
stream draw) exactly at cells whose value is `< 1`, independently for `U`
and `V`; consequently, for every stream of draws lying in `[-0.01, 0.01]`,
every cell of the seeded patch ends with `|U - 0.5| ≤ 0.005` and
`|V - 0.25| ≤ 0.0025`. -/
theorem perturb_seeded_patch_bounds (g : Nat → ℚ)
    (hg : ∀ n, -(1 / 100) ≤ g n ∧ g n ≤ 1 / 100) (width height x y : Nat)
    (hw : 0 < width) (hrow : seedRowSet height y) (hcol : seedColSet width x) :
    |(initializeConcentrations g width height).1 (y * width + x) - 1 / 2| ≤ 1 / 200
    ∧ |(initializeConcentrations g width height).2 (y * width + x) - 1 / 4| ≤ 1 / 400 := by
  have hyh : y < height := by rcases hrow with ⟨_, h2⟩; omega
  have hxw : x < width := by rcases hcol with ⟨_, h2⟩; omega
  have hlt : y * width + x < width * height := by
    calc y * width + x < y * width + width := by omega
    _ = (y + 1) * width := by ring
    _ ≤ height * width := Nat.mul_le_mul_right _ (by omega)
    _ = width * height := Nat.mul_comm _ _
  have hdiv : (y * width + x) / width = y := by
    rw [Nat.mul_comm y width, Nat.mul_add_div hw, Nat.div_eq_of_lt hxw]
    omega
  have hmod : (y * width + x) % width = x := by
    rw [Nat.mul_comm y width, Nat.mul_add_mod, Nat.mod_eq_of_lt hxw]
  have hU : initU_pre width height (y * width + x) = 1 / 2 := by
    rw [initU_pre_apply width height _ hw, hdiv, hmod, if_pos ⟨hrow, hcol⟩]
  have hV : initV_pre width height (y * width + x) = 1 / 4 := by
    rw [initV_pre_apply width height _ hw, hdiv, hmod, if_pos ⟨hrow, hcol⟩]
  obtain ⟨⟨m1, hm1⟩, ⟨m2, hm2⟩⟩ := perturbAux_value g (y * width + x)
    (List.range (width * height)) (initU_pre width height)
    (initV_pre width height) 0 (List.mem_range.mpr hlt)
    (List.nodup_range (width * height))
  constructor
  · show |(perturbAux g (List.range (width * height)) (initU_pre width height)
        (initV_pre width height) 0).1 (y * width + x) - 1 / 2| ≤ 1 / 200
    rw [hm1, hU]
    simp only [perturbCell, if_pos (by norm_num : (1 / 2 : ℚ) < 1)]
    have harith : 1 / 2 + g m1 * (1 / 2) - 1 / 2 = g m1 / 2 := by ring
    obtain ⟨hl, hr⟩ := hg m1
    rw [harith, abs_le]
    constructor <;> [linarith; linarith]
  · show |(perturbAux g (List.range (width * height)) (initU_pre width height)
        (initV_pre width height) 0).2 (y * width + x) - 1 / 4| ≤ 1 / 400
    rw [hm2, hV]
    simp only [perturbCell, if_pos (by norm_num : (1 / 4 : ℚ) < 1)]
    have harith : 1 / 4 + g m2 * (1 / 4) - 1 / 4 = g m2 / 4 := by ring
    obtain ⟨hl, hr⟩ := hg m2
    rw [harith, abs_le]
    constructor <;> [linarith; linarith]

/-- Witness for C6: stream constantly `0.01`, 16×16 grid, patch cell
`(8,8)`. -/
theorem perturb_seeded_patch_bounds_witness :
    |(initializeConcentrations constStream 16 16).1 (8 * 16 + 8) - 1 / 2| ≤ 1 / 200
    ∧ |(initializeConcentrations constStream 16 16).2 (8 * 16 + 8) - 1 / 4| ≤ 1 / 400 :=
  perturb_seeded_patch_bounds constStream
    (fun _ => by constructor <;> norm_num [constStream]) 16 16 8 8
    (by norm_num) (by decide) (by decide)

/-- C10: after the whole initialization, perturbation included, every cell
outside the seeded patch still holds `U = 1` and `V = 0` exactly, for every
random stream: the `U` perturbation is skipped (`1 < 1` fails) and the `V`
perturbation is multiplicative (`0 + r*0 = 0`). -/
theorem init_outside_patch_exact (g : Nat → ℚ) (width height idx : Nat)
    (hw : 0 < width) (hidx : idx < width * height)
    (hout : ¬ (seedRowSet height (idx / width) ∧ seedColSet width (idx % width))) :
    (initializeConcentrations g width height).1 idx = 1
    ∧ (initializeConcentrations g width height).2 idx = 0 := by
  have hU : initU_pre width height idx = 1 := by
    rw [initU_pre_apply width height idx hw, if_neg hout]
  have hV : initV_pre width height idx = 0 := by
    rw [initV_pre_apply width height idx hw, if_neg hout]
  obtain ⟨⟨m1, hm1⟩, ⟨m2, hm2⟩⟩ := perturbAux_value g idx
    (List.range (width * height)) (initU_pre width height)
    (initV_pre width height) 0 (List.mem_range.mpr hidx)
    (List.nodup_range (width * height))
  constructor
  · show (perturbAux g (List.range (width * height)) (initU_pre width height)
        (initV_pre width height) 0).1 idx = 1
    rw [hm1, hU]
    simp [perturbCell]
  · show (perturbAux g (List.range (width * height)) (initU_pre width height)
        (initV_pre width height) 0).2 idx = 0
    rw [hm2, hV]
    simp [perturbCell]

/-- Witness for C10 at the corner cell `0` of a 16×16 grid, under a stream
whose draws are far outside `[-0.01, 0.01]` (no bound on the stream is
needed). -/
theorem init_outside_patch_exact_witness :
    (initializeConcentrations sampleField 16 16).1 0 = 1
    ∧ (initializeConcentrations sampleField 16 16).2 0 = 0 :=
  init_outside_patch_exact sampleField 16 16 0 (by norm_num) (by norm_num)
    (by decide)

/-! ### The flat steady state -/

/-- On the flat state `U = 1`, `V = 0`, one kernel-cell evaluation returns
`(1, 0)`: the Laplacians vanish and every reaction term is `0`. -/
lemma cellFlat (width height : Nat) (Du Dv : ℚ) (x y : Nat) :
    rdKernelCell width height rd_dt rd_dx Du Dv rd_F rd_k
        (constField 1) (constField 0) x y = (1, 0) := by
  have h1 : calculateLaplacian rd_dx (constField 1) x y
      (constField 1 ((y * width + x) % W32)) width height = 0 :=
    lapConstZero rd_dx 1 x y width height
  have h0 : calculateLaplacian rd_dx (constField 0) x y
      (constField 0 ((y * width + x) % W32)) width height = 0 :=
    lapConstZero rd_dx 0 x y width height
  simp only [rdKernelCell]
  rw [h1, h0]
  simp only [constField, Prod.mk.injEq]
  constructor <;> ring

/-- Writing back the unchanged constant leaves a uniform field intact. -/
lemma updAt_const (c : ℚ) (i : Nat) : updAt (constField c) i c = constField c := by
  funext j
  simp [updAt, constField]

/-- Unfolding one cell of the in-place sweep. -/
lemma rdInPlaceAux_cons (width height : Nat) (dt dx Du Dv F k : ℚ) (i : Nat)
    (rest : List Nat) (U V : Nat → ℚ) :
    rdInPlaceAux width height dt dx Du Dv F k (i :: rest) (U, V)
      = rdInPlaceAux width height dt dx Du Dv F k rest
          (updAt U ((i / width * width + i % width) % W32)
            (rdKernelCell width height dt dx Du Dv F k U V (i % width) (i / width)).1,
           updAt V ((i / width * width + i % width) % W32)
            (rdKernelCell width height dt dx Du Dv F k U V (i % width) (i / width)).2) :=
  rfl

/-- In-place execution over any cell list leaves the flat state unchanged. -/
lemma inPlaceFlatAux (width height : Nat) (Du Dv : ℚ) :
    ∀ l : List Nat,
      rdInPlaceAux width height rd_dt rd_dx Du Dv rd_F rd_k l
          (constField 1, constField 0) = (constField 1, constField 0) := by
  intro l
  induction l with
  | nil => rfl
  | cons i rest ih =>
    rw [rdInPlaceAux_cons]
    rw [cellFlat width height Du Dv (i % width) (i / width)]
    dsimp only
    rw [updAt_const, updAt_const]
    exact ih

/-- C7: a step applied to the flat steady state (`U = 1`, `V = 0` everywhere,
no seeded patch) leaves both fields exactly unchanged at every cell, on every
grid whose dimensions are multiples of 16 — both for the implemented
(in-place, any schedule length) step and for the double-buffered reference
step: the Laplacian of each uniform field is `0` and every reaction term
evaluates to `0`. -/
theorem flat_steady_state_step_fixed (width height : Nat)
    (_hw : 16 ∣ width) (_hh : 16 ∣ height) :
    rdInPlace width height rd_dt rd_dx (rd_Du width height) (rd_Dv width height)
        rd_F rd_k (constField 1) (constField 0) = (constField 1, constField 0)
    ∧ rdStepRef width height rd_dt rd_dx (rd_Du width height) (rd_Dv width height)
        rd_F rd_k (constField 1) (constField 0) = (constField 1, constField 0) := by
  constructor
  · exact inPlaceFlatAux width height _ _ _
  · unfold rdStepRef
    refine Prod.ext ?_ ?_
    · funext i
      dsimp only
      rw [cellFlat width height (rd_Du width height) (rd_Dv width height)
          (i % width) (i / width)]
      rfl
    · funext i
      dsimp only
      rw [cellFlat width height (rd_Du width height) (rd_Dv width height)
          (i % width) (i / width)]
      rfl

/-- Witness for C7 on the 16×16 grid. -/
theorem flat_steady_state_step_fixed_witness :
    rdInPlace 16 16 rd_dt rd_dx (rd_Du 16 16) (rd_Dv 16 16) rd_F rd_k
        (constField 1) (constField 0) = (constField 1, constField 0)
    ∧ rdStepRef 16 16 rd_dt rd_dx (rd_Du 16 16) (rd_Dv 16 16) rd_F rd_k
        (constField 1) (constField 0) = (constField 1, constField 0) :=
  flat_steady_state_step_fixed 16 16 (by norm_num) (by norm_num)

/-! ### The wrapper `rd`: call lifecycle -/

/-- C2 counterexample: on the very first call with `width = 17`,
`height = 16`, the wrapper does reach the configuration error, but the
*first* observable action of the call is the allocation of the `U` buffer —
allocation and field initialization happen before the dimension-alignment
check (the check sits after the `first_pass` block, src lines 107-133), so
the error is not raised "before any buffer is touched". -/
theorem rd_first_call_allocates_before_dimension_check :
    (rdCall (RDState.mk none) 17 16).2.head? = some (Event.allocU (17 * 16))
    ∧ Event.configError ∈ (rdCall (RDState.mk none) 17 16).2 := by
  constructor <;> decide

/-- C2 (amended): a first call with misaligned dimensions does fail on the
configuration error, with no kernel launch and no output copy — but only
after both buffers have been allocated and the fields initialized. -/
theorem rd_misaligned_first_call_error_after_alloc_init (width height : Nat)
    (h : width % 16 ≠ 0 ∨ height % 16 ≠ 0) :
    (rdCall (RDState.mk none) width height).2
      = [Event.allocU (width * height), Event.allocV (width * height),
         Event.initFields, Event.configError] := by
  unfold rdCall
  rw [if_pos h]
  rfl

/-- Witness for the amended C2 at `width = 17`, `height = 16`. -/
theorem rd_misaligned_first_call_error_after_alloc_init_witness :
    (rdCall (RDState.mk none) 17 16).2
      = [Event.allocU 272, Event.allocV 272, Event.initFields,
         Event.configError] :=
  rd_misaligned_first_call_error_after_alloc_init 17 16 (by decide)

/-- C9 counterexample: first call at 32×32, second call at 16×16 (both
multiples of the tile size 16, but different): the second call is *not*
reported as a configuration error — it launches the kernel with the new
dimensions. -/
theorem rd_second_call_dims_change_no_error :
    Event.configError ∉ (rdCall (rdCall (RDState.mk none) 32 32).1 16 16).2
    ∧ Event.kernelLaunch 16 16 ∈ (rdCall (rdCall (RDState.mk none) 32 32).1 16 16).2 := by
  constructor <;> decide

/-- C9 (amended): when both calls pass the per-call modulus check, a change
of dimensions between the first and second call is not detected at all: the
second call launches the kernel with the *new* dimensions and copies the
output, while the buffers remain the ones allocated with the *first* call's
dimensions (silent reuse, no resize, no error). -/
theorem rd_dims_change_silently_reused (w1 h1 w2 h2 : Nat)
    (hw1 : w1 % 16 = 0) (hh1 : h1 % 16 = 0) (hw2 : w2 % 16 = 0)
    (hh2 : h2 % 16 = 0) (_hne : ¬ (w2 = w1 ∧ h2 = h1)) :
    (rdCall (rdCall (RDState.mk none) w1 h1).1 w2 h2).2
      = [Event.kernelLaunch w2 h2, Event.copyOut]
    ∧ (rdCall (rdCall (RDState.mk none) w1 h1).1 w2 h2).1.bufDims
        = some (w1, h1) := by
  have hs1 : (rdCall (RDState.mk none) w1 h1).1 = RDState.mk (some (w1, h1)) := by
    unfold rdCall
    have h1' : ¬ (w1 % 16 ≠ 0 ∨ h1 % 16 ≠ 0) := by omega
    rw [if_neg h1']
  rw [hs1]
  unfold rdCall
  have h2' : ¬ (w2 % 16 ≠ 0 ∨ h2 % 16 ≠ 0) := by omega
  rw [if_neg h2']
  exact ⟨rfl, rfl⟩

/-- Witness for the amended C9: first call 32×32, second call 16×16. -/
theorem rd_dims_change_silently_reused_witness :
    (rdCall (rdCall (RDState.mk none) 32 32).1 16 16).2
      = [Event.kernelLaunch 16 16, Event.copyOut]
    ∧ (rdCall (rdCall (RDState.mk none) 32 32).1 16 16).1.bufDims
        = some (32, 32) :=
  rd_dims_change_silently_reused 32 32 16 16 (by decide) (by decide)
    (by decide) (by decide) (by decide)

/-! ### The neighbor-read hazard of the single-buffer kernel -/

/-- Cells of the sweep list whose write index differs from `j` leave the
value at `j` unchanged. -/
lemma rdInPlaceAux_untouched (width height : Nat) (dt dx Du Dv F k : ℚ)
    (j : Nat) :
    ∀ (l : List Nat) (U V : Nat → ℚ),
      (∀ i ∈ l, (i / width * width + i % width) % W32 ≠ j) →
      (rdInPlaceAux width height dt dx Du Dv F k l (U, V)).1 j = U j
      ∧ (rdInPlaceAux width height dt dx Du Dv F k l (U, V)).2 j = V j := by
  intro l
  induction l with
  | nil => intro U V _; exact ⟨rfl, rfl⟩
  | cons i rest ih =>
    intro U V hl
    rw [rdInPlaceAux_cons]
    have hi : (i / width * width + i % width) % W32 ≠ j :=
      hl i (List.mem_cons_self i rest)
    have hrest : ∀ i' ∈ rest, (i' / width * width + i' % width) % W32 ≠ j :=
      fun i' hi' => hl i' (List.mem_cons_of_mem _ hi')
    constructor
    · rw [(ih _ _ hrest).1]; simp [updAt, Ne.symm hi]
    · rw [(ih _ _ hrest).2]; simp [updAt, Ne.symm hi]

set_option maxRecDepth 8000 in
/-- C1: the claim that the implemented step equals the double-buffered
reference step for every field contents fails. On the 16×16 grid whose
fields are flat except for a single perturbed cell at linear index 0
(`U(0) = 1/2`, `V(0) = 1/2`), executing the unsynchronized in-place kernel
under the admissible schedule in which cell 0 completes before cell 1
begins makes cell 1 read its left neighbor's already-advanced `U` value,
so the resulting `U` at cell 1 differs from the double-buffered reference
value computed from pre-step data only. -/
theorem rd_kernel_inplace_ne_double_buffered :
    (rdInPlace 16 16 rd_dt rd_dx (rd_Du 16 16) (rd_Dv 16 16) rd_F rd_k
        badU badV).1 1
      ≠ (rdStepRef 16 16 rd_dt rd_dx (rd_Du 16 16) (rd_Dv 16 16) rd_F rd_k
        badU badV).1 1 := by
  have hpeel : List.range (16 * 16) = 0 :: 1 :: List.range' 2 254 := by decide
  unfold rdInPlace
  rw [hpeel, rdInPlaceAux_cons, rdInPlaceAux_cons]
  rw [(rdInPlaceAux_untouched 16 16 rd_dt rd_dx (rd_Du 16 16) (rd_Dv 16 16)
      rd_F rd_k 1 (List.range' 2 254) _ _ (by decide)).1]
  norm_num [updAt, rdKernelCell, calculateLaplacian, rdStepRef, badU, badV,
    rd_dt, rd_dx, rd_Du, rd_Dv, rd_F, rd_k, W32]

end RD
